import Mathlib

/-
Verification of the `count` line-counting tool (src/main.rs).

The Rust program is embedded shallowly:
* `FileStats`, `LanguageStats`, `StatisticsManager` mirror the structs
  (u64 counters are modelled as `Nat`);
* Rust `HashMap`s are modelled as association lists with `lookupKey`;
* `str::lines()` is modelled by `rustLines` (split-inclusive at a newline,
  then strip a trailing newline and, after it, a trailing carriage return);
* the file system is an explicit parameter `FS`; `anyhow` results become
  `Except String`; `main`'s observable behaviour is `MainOutcome`.
-/

set_option autoImplicit false

deriving instance DecidableEq for Except

namespace Count

/-- Per-file line statistics, mirroring `struct FileStats` (main.rs 10-23). -/
structure FileStats where
  lines : Nat
  code : Nat
  comments : Nat
  blanks : Nat
deriving DecidableEq, Repr

/-- The `Default` derive for `FileStats`: all counters zero. -/
def FileStats.default : FileStats := ⟨0, 0, 0, 0⟩

/-- `FileStats::add` (main.rs 48-55): field-wise sum. -/
def FileStats.add (self other : FileStats) : FileStats :=
  { blanks := self.blanks + other.blanks
    comments := self.comments + other.comments
    lines := self.lines + other.lines
    code := self.code + other.code }

/-- Per-language accumulator, mirroring `struct LanguageStats` (main.rs 26-33). -/
structure LanguageStats where
  stats : FileStats
  file_count : Nat
deriving DecidableEq, Repr

/-- The `Default` derive for `LanguageStats`. -/
def LanguageStats.default : LanguageStats := ⟨FileStats.default, 0⟩

/-- `LanguageStats::add` (main.rs 57-62): fold one file in, bump the file count. -/
def LanguageStats.add (self : LanguageStats) (stats : FileStats) : LanguageStats :=
  { stats := self.stats.add stats, file_count := self.file_count + 1 }

/-- Rust `str::split_inclusive('\n')`: cut after every newline, keeping the
terminator with its segment; an unterminated tail forms a final segment and
the empty string yields no segments. -/
def splitInclusive : List Char → List (List Char)
  | [] => []
  | c :: rest =>
    if c = '\n' then [c] :: splitInclusive rest
    else
      match splitInclusive rest with
      | [] => [[c]]
      | s :: ss => (c :: s) :: ss

/-- Rust `str::strip_suffix(c)` for a single character. -/
def stripSuffixChar (l : List Char) (c : Char) : Option (List Char) :=
  if l.getLast? = some c then some l.dropLast else none

/-- The per-segment map inside Rust `str::lines()`: remove one trailing
newline and, only when it was present, one trailing carriage return. -/
def linesMap (l : List Char) : List Char :=
  match stripSuffixChar l '\n' with
  | none => l
  | some l2 =>
    match stripSuffixChar l2 '\r' with
    | none => l2
    | some l3 => l3

/-- Rust `str::lines()` as used by `process_markdown_file` (main.rs 162). -/
def rustLines (s : List Char) : List (List Char) :=
  (splitInclusive s).map linesMap

/-- One iteration of the counting loop in `process_markdown_file`
(main.rs 162-170): an empty line is blank, any other line is code. -/
def countLine (stats : FileStats) (line : List Char) : FileStats :=
  if line = [] then
    { stats with blanks := stats.blanks + 1, lines := stats.lines + 1 }
  else
    { stats with code := stats.code + 1, lines := stats.lines + 1 }

/-- The pure core of `process_markdown_file`: count already-read content. -/
def count_content (content : String) : FileStats :=
  (rustLines content.data).foldl countLine FileStats.default

/-- Outcome of opening and reading one file, the two failure points of
`read_file_content` (main.rs 125-138). -/
inductive ReadResult where
  | openErr : ReadResult
  | readErr : ReadResult
  | ok : String → ReadResult
deriving DecidableEq

/-- The external file system: per-path read outcomes, the directory test and
the recursive directory walk (`read_dir_recursively`, an external collaborator
returning the flattened file list or an I/O error). -/
structure FS where
  read : String → ReadResult
  isDir : String → Bool
  walk : String → Except String (List String)

/-- `read_file_content` (main.rs 125-138): errors carry the `anyhow` context
message (`format!("open file :{:?}", filepath)` quotes the path). -/
def read_file_content (fs : FS) (filepath : String) : Except String String :=
  match fs.read filepath with
  | .openErr => .error ("open file :\"" ++ filepath ++ "\"")
  | .readErr => .error "read file content"
  | .ok content => .ok content

/-- `process_markdown_file` (main.rs 157-173). -/
def process_markdown_file (fs : FS) (filepath : String) : Except String FileStats :=
  match read_file_content fs filepath with
  | .error e => .error e
  | .ok content => .ok (count_content content)

/-- The function pointers stored in `StatisticsManager.processors`; only the
markdown counter is ever registered (main.rs 77-80). -/
inductive Processor where
  | markdown
deriving DecidableEq, Repr

/-- Apply a stored processor to a path, reading through the file system. -/
def runProcessor : Processor → FS → String → Except String FileStats
  | .markdown => process_markdown_file

/-- Association-list model of `HashMap::get`. -/
def lookupKey {α : Type} (k : String) : List (String × α) → Option α
  | [] => none
  | (k2, v) :: rest => if k2 = k then some v else lookupKey k rest

/-- Split a character list at the last dot: `some (before, after)`, or `none`
when no dot occurs. Mirrors `rsplitn(2, '.')` in Rust `rsplit_file_at_dot`. -/
def splitAtLastDot : List Char → Option (List Char × List Char)
  | [] => none
  | c :: rest =>
    match splitAtLastDot rest with
    | some (b, a) => some (c :: b, a)
    | none => if c = '.' then some ([], rest) else none

/-- Rust `Path::file_name`: the last non-empty, non-`.` component of the
path; `none` for an empty path or one ending in `..`. -/
def file_name (p : String) : Option String :=
  let comps := ((p.data.splitOn '/').filter fun c => c ≠ [] ∧ c ≠ ['.'])
  match comps.getLast? with
  | none => none
  | some last => if last = ['.', '.'] then none else some (String.mk last)

/-- Rust `Path::extension`: the part of the file name after its last dot;
`none` when there is no dot or the only dot starts the name. -/
def extension (p : String) : Option String :=
  match file_name p with
  | none => none
  | some name =>
    if name = ".." then none
    else
      match splitAtLastDot name.data with
      | none => none
      | some (before, after) =>
        if before = [] then none else some (String.mk after)

/-- `struct StatisticsManager` (main.rs 36-46); the three `HashMap`s are
association lists. -/
structure StatisticsManager where
  language_stats : List (String × LanguageStats)
  extension_map : List (String × String)
  processors : List (String × Processor)
deriving DecidableEq

/-- `StatisticsManager::new` (main.rs 64-83): register the `md` extension
for Markdown with the markdown processor. -/
def StatisticsManager.new : StatisticsManager :=
  { language_stats := []
    extension_map := [("md", "Markdown")]
    processors := [("md", Processor.markdown)] }

/-- `HashMap::entry(lang).or_default()` followed by `LanguageStats::add`
(main.rs 90-91): update the entry in place, or append a fresh zero entry
folded with the new stats. -/
def addToTable (tbl : List (String × LanguageStats)) (lang : String)
    (stats : FileStats) : List (String × LanguageStats) :=
  match tbl with
  | [] => [(lang, LanguageStats.default.add stats)]
  | (k, v) :: rest =>
    if k = lang then (k, v.add stats) :: rest
    else (k, v) :: addToTable rest lang stats

/-- `StatisticsManager::process_file` (main.rs 85-97). The pair returns the
manager after the call (`&mut self`) together with the `anyhow::Result<()>`;
on error the manager is returned untouched, as the Rust `?` fires before any
mutation. -/
def StatisticsManager.process_file (fs : FS) (self : StatisticsManager)
    (filepath : String) : StatisticsManager × Except String Unit :=
  match extension filepath with
  | none => (self, .ok ())
  | some ext =>
    match lookupKey ext self.processors with
    | none => (self, .ok ())
    | some processor =>
      match runProcessor processor fs filepath with
      | .error e => (self, .error e)
      | .ok stats =>
        match lookupKey ext self.extension_map with
        | none => (self, .ok ())
        | some lang =>
          ({ self with language_stats := addToTable self.language_stats lang stats },
           .ok ())

/-- `StatisticsManager::total_files` (main.rs 117-122). -/
def StatisticsManager.total_files (self : StatisticsManager) : Nat :=
  (self.language_stats.map fun kv => kv.2.file_count).sum

/-- The processing loop of `main` (main.rs 204-206): fold `process_file`
over the file list, aborting at the first error via `?`. -/
def processAll (fs : FS) (self : StatisticsManager) :
    List String → StatisticsManager × Except String Unit
  | [] => (self, .ok ())
  | p :: rest =>
    match self.process_file fs p with
    | (m, .ok _) => processAll fs m rest
    | (m, .error e) => (m, .error e)

/-- The argument loop of `main` (main.rs 193-201): directories are expanded
by the walker, plain paths are kept; a walk error aborts via `?`. -/
def collectFiles (fs : FS) : List String → Except String (List String)
  | [] => .ok []
  | arg :: rest =>
    if fs.isDir arg then
      match fs.walk arg with
      | .error e => .error e
      | .ok sub =>
        match collectFiles fs rest with
        | .error e => .error e
        | .ok more => .ok (sub ++ more)
    else
      match collectFiles fs rest with
      | .error e => .error e
      | .ok more => .ok (arg :: more)

/-- Observable outcome of `main` (main.rs 175-211): the zero-argument exit,
an aborting I/O or processing error, or success with the final table. -/
inductive MainOutcome where
  | argError : MainOutcome
  | runError : String → MainOutcome
  | success : StatisticsManager → MainOutcome
deriving DecidableEq

/-- `main` over explicit arguments (program name already skipped) and an
explicit file system. -/
def mainRun (fs : FS) (args : List String) : MainOutcome :=
  if args = [] then .argError
  else
    match collectFiles fs args with
    | .error e => .runError e
    | .ok files =>
      match processAll fs StatisticsManager.new files with
      | (m, .ok _) => .success m
      | (_, .error e) => .runError e

/-- Process exit code of each outcome: `exit(1)` for the argument error,
code 1 from the `anyhow` `Err` return, 0 on success. -/
def exitCode : MainOutcome → Nat
  | .argError => 1
  | .runError _ => 1
  | .success _ => 0

/-- What reaches stderr: the fixed argument message or the error display. -/
def stderrMessage : MainOutcome → Option String
  | .argError => some "No filepath provided!"
  | .runError e => some e
  | .success _ => none

/-- Whether `print_statistics` runs: only on the success path (main.rs 208). -/
def printsReport : MainOutcome → Bool
  | .success _ => true
  | _ => false

/-- The FileStats well-formedness invariant from the spec:
total lines split exactly into code, comments and blanks. -/
def statsInv (s : FileStats) : Prop :=
  s.lines = s.code + s.comments + s.blanks

instance (s : FileStats) : Decidable (statsInv s) := by
  unfold statsInv; infer_instance

/-- Resolution used by `process_file`: the path's extension looked up in the
processor registry. -/
def resolveProcessor (m : StatisticsManager) (p : String) : Option Processor :=
  (extension p).bind fun ext => lookupKey ext m.processors

/-- A concrete file system with two readable markdown files, used for the
scenario checks. -/
def mdDemoFS : FS :=
  { read := fun p =>
      if p = "a.md" then .ok "x\n"
      else if p = "b.md" then .ok "\n\n"
      else .openErr
    isDir := fun _ => false
    walk := fun _ => .error "no walk" }

/-- A concrete file system where `bad.md` fails to open while `ok.md` and
`later.md` read fine, used for the abort-behaviour checks. -/
def errDemoFS : FS :=
  { read := fun p =>
      if p = "ok.md" then .ok "x\n"
      else if p = "later.md" then .ok "y\n"
      else .openErr
    isDir := fun _ => false
    walk := fun _ => .error "no walk" }

/-- A concrete file system where every read fails to open. -/
def failFS : FS :=
  { read := fun _ => .openErr
    isDir := fun _ => false
    walk := fun _ => .error "no walk" }

/-
Helper lemmas shared by the claim theorems.
-/

/-- Closed form of the counting fold of `process_markdown_file`. -/
theorem foldl_countLine_eq (ls : List (List Char)) (acc : FileStats) :
    ls.foldl countLine acc =
      ⟨acc.lines + ls.length,
       acc.code + ls.countP (fun l => !decide (l = [])),
       acc.comments,
       acc.blanks + ls.countP (fun l => decide (l = []))⟩ := by
  induction ls generalizing acc with
  | nil => simp
  | cons hd tl ih =>
    rw [List.foldl_cons, ih, List.countP_cons, List.countP_cons]
    by_cases h : hd = [] <;>
      simp [countLine, h, FileStats.mk.injEq] <;> omega

/-- The counter in closed form: total lines, non-empty lines as code, no
comments, empty lines as blanks. -/
theorem count_content_eq (content : String) :
    count_content content =
      ⟨(rustLines content.data).length,
       (rustLines content.data).countP (fun l => !decide (l = [])),
       0,
       (rustLines content.data).countP (fun l => decide (l = []))⟩ := by
  unfold count_content
  rw [foldl_countLine_eq]
  simp [FileStats.default]

/-- The code-count and blank-count of a line list always sum to its length. -/
theorem countP_ne_add_countP_eq (ls : List (List Char)) :
    ls.countP (fun l => !decide (l = [])) + ls.countP (fun l => decide (l = [])) =
      ls.length := by
  induction ls with
  | nil => rfl
  | cons hd tl ih =>
    rw [List.countP_cons, List.countP_cons]
    by_cases h : hd = [] <;> simp [h] <;> omega

/-- C1: for every text content the counter returns FileStats with
lines = code + comments + blanks, and the invariant is preserved by the
field-wise sum `FileStats.add`. -/
theorem stats_invariant_holds_and_additive :
    (∀ content : String, statsInv (count_content content)) ∧
    (∀ a b : FileStats, statsInv a → statsInv b → statsInv (a.add b)) := by
  constructor
  · intro content
    have h := countP_ne_add_countP_eq (rustLines content.data)
    simp only [statsInv, count_content_eq]
    omega
  · intro a b ha hb
    simp only [statsInv, FileStats.add] at *
    omega

/-- Witness for C1 at concrete contents. -/
theorem stats_invariant_holds_and_additive_witness :
    statsInv ((count_content "x\n").add (count_content "\n\n")) :=
  stats_invariant_holds_and_additive.2 _ _
    (stats_invariant_holds_and_additive.1 "x\n")
    (stats_invariant_holds_and_additive.1 "\n\n")

/-- C2: lines are classified independently — comments is always 0, blanks
counts exactly the empty lines and code the non-empty ones; content whose
lines are all non-empty has code = N and blanks = 0, and content whose lines
are all empty has blanks = N and code = 0. -/
theorem line_classification :
    (∀ content : String,
      (count_content content).comments = 0 ∧
      (count_content content).code =
        (rustLines content.data).countP (fun l => !decide (l = [])) ∧
      (count_content content).blanks =
        (rustLines content.data).countP (fun l => decide (l = []))) ∧
    (∀ content : String, (∀ l ∈ rustLines content.data, l ≠ []) →
      (count_content content).code = (rustLines content.data).length ∧
      (count_content content).blanks = 0) ∧
    (∀ content : String, (∀ l ∈ rustLines content.data, l = []) →
      (count_content content).blanks = (rustLines content.data).length ∧
      (count_content content).code = 0) := by
  refine ⟨fun content => ?_, fun content h => ?_, fun content h => ?_⟩
  · simp [count_content_eq]
  · simp only [count_content_eq]
    constructor
    · exact List.countP_eq_length.mpr (by simpa using h)
    · exact List.countP_eq_zero.mpr (by simpa using h)
  · simp only [count_content_eq]
    constructor
    · exact List.countP_eq_length.mpr (by simpa using h)
    · exact List.countP_eq_zero.mpr (by simpa using h)

/-- Witness for C2 at concrete contents. -/
theorem line_classification_witness :
    ((count_content "x\ny\n").code = (rustLines "x\ny\n".data).length ∧
      (count_content "x\ny\n").blanks = 0) ∧
    ((count_content "\n\n").blanks = (rustLines "\n\n".data).length ∧
      (count_content "\n\n").code = 0) :=
  ⟨line_classification.2.1 "x\ny\n" (by decide),
   line_classification.2.2 "\n\n" (by decide)⟩

/-- Folding two files into a language accumulator commutes. -/
theorem lang_add_right_comm (s : LanguageStats) (a b : FileStats) :
    (s.add a).add b = (s.add b).add a := by
  rcases s with ⟨⟨sl, sc, sm, sb⟩, n⟩
  rcases a with ⟨al, ac, am, ab⟩
  rcases b with ⟨bl, bc, bm, bb⟩
  simp only [LanguageStats.add, FileStats.add, LanguageStats.mk.injEq,
    FileStats.mk.injEq]
  exact ⟨by omega, trivial⟩

/-- Folding a permuted list of per-file stats yields the same accumulator. -/
theorem foldl_lang_add_perm {l1 l2 : List FileStats} (h : l1.Perm l2) :
    ∀ init : LanguageStats,
      l1.foldl LanguageStats.add init = l2.foldl LanguageStats.add init := by
  induction h with
  | nil => intro init; rfl
  | cons x _ ih =>
    intro init
    simp only [List.foldl_cons]
    exact ih _
  | swap x y l =>
    intro init
    simp only [List.foldl_cons]
    rw [lang_add_right_comm]
  | trans _ _ ih1 ih2 =>
    intro init
    rw [ih1, ih2]

/-- C3: aggregation is order-independent — folding any permutation of a list
of FileStats by `LanguageStats.add` gives the same LanguageStats, each add
bumps file_count by exactly one, and processing `a.md` (content "x\n") then
`b.md` (content "\n\n") yields the Markdown entry
file_count = 2, code = 1, blanks = 2, lines = 3. -/
theorem aggregation_order_independent :
    (∀ (init : LanguageStats) (l1 l2 : List FileStats), l1.Perm l2 →
        l1.foldl LanguageStats.add init = l2.foldl LanguageStats.add init) ∧
    (∀ (s : LanguageStats) (a : FileStats),
        (s.add a).file_count = s.file_count + 1) ∧
    lookupKey "Markdown"
        (processAll mdDemoFS StatisticsManager.new ["a.md", "b.md"]).1.language_stats
      = some ⟨⟨3, 1, 0, 2⟩, 2⟩ := by
  refine ⟨fun init l1 l2 h => foldl_lang_add_perm h init, fun s a => rfl, by decide⟩

/-- Witness for C3: the fold over two concrete FileStats and its swap agree. -/
theorem aggregation_order_independent_witness :
    [FileStats.mk 1 1 0 0, FileStats.mk 2 0 0 2].foldl LanguageStats.add
        LanguageStats.default
      = [FileStats.mk 2 0 0 2, FileStats.mk 1 1 0 0].foldl LanguageStats.add
        LanguageStats.default :=
  aggregation_order_independent.1 LanguageStats.default _ _
    (List.Perm.swap (FileStats.mk 2 0 0 2) (FileStats.mk 1 1 0 0) [])

/-- When the extension does not resolve to a processor, `process_file`
returns `Ok(())` with the manager untouched, for any file system. -/
theorem process_file_unresolved (fs : FS) (m : StatisticsManager) (p : String)
    (h : resolveProcessor m p = none) :
    m.process_file fs p = (m, Except.ok ()) := by
  unfold StatisticsManager.process_file
  unfold resolveProcessor at h
  cases hext : extension p with
  | none => simp only [hext]
  | some ext =>
    rw [hext] at h
    simp only [Option.some_bind] at h
    simp only [hext, h]

/-- C4: a path whose extension does not resolve in the processor registry
(including paths with no extension) leaves the aggregation table completely
unchanged and the total file count unaffected. -/
theorem unresolved_extension_no_effect :
    ∀ (fs : FS) (m : StatisticsManager) (p : String),
      resolveProcessor m p = none →
      m.process_file fs p = (m, Except.ok ()) ∧
      (m.process_file fs p).1.language_stats = m.language_stats ∧
      (m.process_file fs p).1.total_files = m.total_files := by
  intro fs m p h
  rw [process_file_unresolved fs m p h]
  exact ⟨rfl, rfl, rfl⟩

/-- Witness for C4: a `txt` file on a fresh manager is a no-op. -/
theorem unresolved_extension_no_effect_witness :
    StatisticsManager.new.process_file failFS "a.txt"
      = (StatisticsManager.new, Except.ok ()) :=
  (unresolved_extension_no_effect failFS StatisticsManager.new "a.txt" (by decide)).1

/-- C5: a failing counter propagates its error through `process_file` and
leaves every language's accumulated stats exactly as before the call. -/
theorem counter_failure_propagates_no_mutation :
    ∀ (fs : FS) (m : StatisticsManager) (p ext : String) (proc : Processor)
      (e : String),
      extension p = some ext →
      lookupKey ext m.processors = some proc →
      runProcessor proc fs p = .error e →
      m.process_file fs p = (m, .error e) := by
  intro fs m p ext proc e hext hproc herr
  unfold StatisticsManager.process_file
  simp only [hext, hproc, herr]

/-- Witness for C5: an unreadable `md` file propagates its open error. -/
theorem counter_failure_propagates_no_mutation_witness :
    StatisticsManager.new.process_file failFS "bad.md"
      = (StatisticsManager.new, .error "open file :\"bad.md\"") :=
  counter_failure_propagates_no_mutation failFS StatisticsManager.new "bad.md"
    "md" Processor.markdown "open file :\"bad.md\""
    (by decide) (by decide) (by decide)

/-- C10: a path with an unregistered extension (or no extension) is processed
successfully without any filesystem access: the outcome is `Ok` with the
table untouched and is identical under every file system. -/
theorem unresolved_extension_no_fs_access :
    ∀ (m : StatisticsManager) (p : String),
      resolveProcessor m p = none →
      ∀ fs fs2 : FS,
        m.process_file fs p = (m, Except.ok ()) ∧
        m.process_file fs p = m.process_file fs2 p := by
  intro m p h fs fs2
  rw [process_file_unresolved fs m p h, process_file_unresolved fs2 m p h]
  exact ⟨rfl, rfl⟩

/-- Witness for C10: a nonexistent `bin` path on an all-failing file system
is still processed successfully. -/
theorem unresolved_extension_no_fs_access_witness :
    StatisticsManager.new.process_file failFS "missing.bin"
      = (StatisticsManager.new, Except.ok ()) ∧
    StatisticsManager.new.process_file failFS "missing.bin"
      = StatisticsManager.new.process_file mdDemoFS "missing.bin" :=
  unresolved_extension_no_fs_access StatisticsManager.new "missing.bin"
    (by decide) failFS mdDemoFS

/-- A non-empty string splits into at least one inclusive segment. -/
theorem splitInclusive_ne_nil (c : Char) (rest : List Char) :
    splitInclusive (c :: rest) ≠ [] := by
  rw [splitInclusive]
  by_cases h : c = '\n'
  · simp [h]
  · simp only [if_neg h]
    cases splitInclusive rest <;> simp

/-- A leading newline is its own inclusive segment. -/
theorem splitInclusive_cons_newline (t : List Char) :
    splitInclusive ('\n' :: t) = ['\n'] :: splitInclusive t := by
  rw [splitInclusive, if_pos rfl]

/-- Prepending a non-newline character to a non-empty string does not change
the number of inclusive segments. -/
theorem splitInclusive_cons_not_newline (x : Char) (hx : x ≠ '\n')
    (t : List Char) (ht : t ≠ []) :
    (splitInclusive (x :: t)).length = (splitInclusive t).length := by
  rw [splitInclusive, if_neg hx]
  rcases h2 : splitInclusive t with _ | ⟨s, ss⟩
  · cases t with
    | nil => cases ht rfl
    | cons a b => exact absurd h2 (splitInclusive_ne_nil a b)
  · simp

/-- Appending a final newline to content that does not already end in one
does not change the number of inclusive segments. -/
theorem splitInclusive_append_newline (c : List Char) (hne : c ≠ [])
    (hlast : c.getLast? ≠ some '\n') :
    (splitInclusive (c ++ ['\n'])).length = (splitInclusive c).length := by
  induction c with
  | nil => cases hne rfl
  | cons x rest ih =>
    cases rest with
    | nil =>
      have hx : x ≠ '\n' := by simpa using hlast
      simp [splitInclusive, hx]
    | cons y rest2 =>
      have hlast2 : (y :: rest2).getLast? ≠ some '\n' := by
        simpa [List.getLast?_cons_cons] using hlast
      have ih2 := ih (by simp) hlast2
      by_cases hx : x = '\n'
      · subst hx
        rw [List.cons_append, splitInclusive_cons_newline,
          splitInclusive_cons_newline, List.length_cons, List.length_cons, ih2]
      · rw [List.cons_append,
          splitInclusive_cons_not_newline x hx ((y :: rest2) ++ ['\n']) (by simp),
          splitInclusive_cons_not_newline x hx (y :: rest2) (by simp)]
        exact ih2

/-- C6: the counter's edge cases — empty content yields all-zero stats, a
final line without a trailing terminator is still counted, a carriage
return plus newline ends the line at the newline without adding a blank
line, and content "a\n\nb\n" yields lines 3, code 2, comments 0, blanks 1. -/
theorem counter_edge_cases :
    count_content "" = ⟨0, 0, 0, 0⟩ ∧
    (∀ c : List Char, c ≠ [] → c.getLast? ≠ some '\n' →
      (count_content (String.mk (c ++ ['\n']))).lines
        = (count_content (String.mk c)).lines) ∧
    count_content "a\r\n" = ⟨1, 1, 0, 0⟩ ∧
    count_content "a\n\nb\n" = ⟨3, 2, 0, 1⟩ := by
  refine ⟨by decide, ?_, by decide, by decide⟩
  intro c hne hlast
  rw [count_content_eq, count_content_eq]
  simp only [rustLines, List.length_map]
  exact splitInclusive_append_newline c hne hlast

/-- Witness for C6: a one-character final line is counted with or without
its terminator. -/
theorem counter_edge_cases_witness :
    (count_content (String.mk (['a'] ++ ['\n']))).lines
      = (count_content (String.mk ['a'])).lines :=
  counter_edge_cases.2.1 ['a'] (by decide) (by decide)

/-- A failing `process_file` call returns the manager unchanged together
with the error: the `?` fires before any mutation. -/
theorem process_file_error_fst (fs : FS) (m : StatisticsManager) (p e : String)
    (h : (m.process_file fs p).2 = .error e) :
    m.process_file fs p = (m, .error e) := by
  unfold StatisticsManager.process_file at h ⊢
  cases hext : extension p with
  | none => simp only [hext] at h; exact Except.noConfusion h
  | some ext =>
    simp only [hext] at h ⊢
    cases hproc : lookupKey ext m.processors with
    | none => simp only [hproc] at h; exact Except.noConfusion h
    | some proc =>
      simp only [hproc] at h ⊢
      cases hrun : runProcessor proc fs p with
      | error e2 =>
        simp only [hrun] at h ⊢
        simp only [Except.error.injEq] at h
        rw [h]
      | ok stats =>
        simp only [hrun] at h
        cases hlang : lookupKey ext m.extension_map with
        | none => simp only [hlang] at h; exact Except.noConfusion h
        | some lang => simp only [hlang] at h; exact Except.noConfusion h

/-- Processing a concatenated file list runs the second part only when the
first part succeeded. -/
theorem processAll_append (fs : FS) (m : StatisticsManager) (xs ys : List String) :
    processAll fs m (xs ++ ys) =
      match processAll fs m xs with
      | (m2, .ok _) => processAll fs m2 ys
      | (m2, .error e) => (m2, .error e) := by
  induction xs generalizing m with
  | nil => simp [processAll]
  | cons p rest ih =>
    rcases hpf : m.process_file fs p with ⟨m2, r⟩
    cases r with
    | ok u =>
      cases u
      simp only [List.cons_append, processAll, hpf]
      exact ih m2
    | error e =>
      simp only [List.cons_append, processAll, hpf]

/-- `process_file` never touches the extension map or the processor map. -/
theorem process_file_preserves_maps (fs : FS) (m : StatisticsManager) (p : String) :
    (m.process_file fs p).1.extension_map = m.extension_map ∧
    (m.process_file fs p).1.processors = m.processors := by
  unfold StatisticsManager.process_file
  cases hext : extension p with
  | none => exact ⟨rfl, rfl⟩
  | some ext =>
    simp only [hext]
    cases hproc : lookupKey ext m.processors with
    | none => exact ⟨rfl, rfl⟩
    | some proc =>
      simp only [hproc]
      cases hrun : runProcessor proc fs p with
      | error e => exact ⟨rfl, rfl⟩
      | ok stats =>
        simp only [hrun]
        cases hlang : lookupKey ext m.extension_map with
        | none => exact ⟨rfl, rfl⟩
        | some lang => simp [hlang]

/-- The whole processing loop never touches the extension map or the
processor map. -/
theorem processAll_preserves_maps (fs : FS) (ps : List String) :
    ∀ m : StatisticsManager,
      (processAll fs m ps).1.extension_map = m.extension_map ∧
      (processAll fs m ps).1.processors = m.processors := by
  induction ps with
  | nil => intro m; exact ⟨rfl, rfl⟩
  | cons p rest ih =>
    intro m
    have hmaps := process_file_preserves_maps fs m p
    rcases hpf : m.process_file fs p with ⟨m2, r⟩
    rw [hpf] at hmaps
    cases r with
    | ok u =>
      cases u
      simp only [processAll, hpf]
      obtain ⟨h1, h2⟩ := ih m2
      exact ⟨h1.trans hmaps.1, h2.trans hmaps.2⟩
    | error e =>
      simp only [processAll, hpf]
      exact hmaps

/-- C7: the first failing file aborts the whole run — the loop stops at the
error, later files are never processed, no report is printed, and the
process exits non-zero with the contextual error message. -/
theorem first_error_aborts_run :
    ∀ (fs : FS) (args xs ys : List String) (p e : String),
      args ≠ [] →
      collectFiles fs args = .ok (xs ++ p :: ys) →
      (processAll fs StatisticsManager.new xs).2 = .ok () →
      ((processAll fs StatisticsManager.new xs).1.process_file fs p).2 = .error e →
      processAll fs StatisticsManager.new (xs ++ p :: ys)
          = ((processAll fs StatisticsManager.new xs).1, .error e) ∧
      mainRun fs args = .runError e ∧
      exitCode (mainRun fs args) = 1 ∧
      printsReport (mainRun fs args) = false ∧
      stderrMessage (mainRun fs args) = some e := by
  intro fs args xs ys p e hargs hcollect hok herr
  have hxs : processAll fs StatisticsManager.new xs
      = ((processAll fs StatisticsManager.new xs).1, Except.ok ()) := by
    rw [← hok]
  have hpf := process_file_error_fst fs (processAll fs StatisticsManager.new xs).1 p e herr
  have habort : processAll fs StatisticsManager.new (xs ++ p :: ys)
      = ((processAll fs StatisticsManager.new xs).1, .error e) := by
    rw [processAll_append, hxs]
    simp only [processAll, hpf]
  have hmain : mainRun fs args = .runError e := by
    unfold mainRun
    rw [if_neg hargs, hcollect]
    simp only [habort]
  exact ⟨habort, hmain, by rw [hmain]; rfl, by rw [hmain]; rfl, by rw [hmain]; rfl⟩

/-- Witness for C7: `bad.md` fails to open after `ok.md` succeeds, so
`later.md` is never processed and the run aborts. -/
theorem first_error_aborts_run_witness :
    processAll errDemoFS StatisticsManager.new (["ok.md"] ++ "bad.md" :: ["later.md"])
        = ((processAll errDemoFS StatisticsManager.new ["ok.md"]).1,
           .error "open file :\"bad.md\"") ∧
    mainRun errDemoFS ["ok.md", "bad.md", "later.md"]
        = .runError "open file :\"bad.md\"" ∧
    exitCode (mainRun errDemoFS ["ok.md", "bad.md", "later.md"]) = 1 ∧
    printsReport (mainRun errDemoFS ["ok.md", "bad.md", "later.md"]) = false ∧
    stderrMessage (mainRun errDemoFS ["ok.md", "bad.md", "later.md"])
        = some "open file :\"bad.md\"" :=
  first_error_aborts_run errDemoFS ["ok.md", "bad.md", "later.md"]
    ["ok.md"] ["later.md"] "bad.md" "open file :\"bad.md\""
    (by decide) (by decide) (by decide) (by decide)

/-- C8: with zero arguments the program writes "No filepath provided!" to
stderr and exits with code 1 before touching any file; with arguments and
fully successful processing it prints the report and exits with code 0. -/
theorem cli_exit_behavior :
    (∀ fs : FS,
      mainRun fs [] = .argError ∧
      exitCode (mainRun fs []) = 1 ∧
      stderrMessage (mainRun fs []) = some "No filepath provided!" ∧
      printsReport (mainRun fs []) = false) ∧
    (∀ (fs : FS) (args files : List String) (m : StatisticsManager),
      args ≠ [] →
      collectFiles fs args = .ok files →
      processAll fs StatisticsManager.new files = (m, .ok ()) →
      mainRun fs args = .success m ∧
      exitCode (mainRun fs args) = 0 ∧
      printsReport (mainRun fs args) = true ∧
      stderrMessage (mainRun fs args) = none) := by
  constructor
  · intro fs
    exact ⟨rfl, rfl, rfl, rfl⟩
  · intro fs args files m hargs hcollect hproc
    have hmain : mainRun fs args = .success m := by
      unfold mainRun
      rw [if_neg hargs, hcollect]
      simp only [hproc]
    exact ⟨hmain, by rw [hmain]; rfl, by rw [hmain]; rfl, by rw [hmain]; rfl⟩

/-- Witness for C8: the zero-argument exit on a concrete file system, and a
fully successful two-file run. -/
theorem cli_exit_behavior_witness :
    (mainRun mdDemoFS [] = .argError ∧
      exitCode (mainRun mdDemoFS []) = 1 ∧
      stderrMessage (mainRun mdDemoFS []) = some "No filepath provided!" ∧
      printsReport (mainRun mdDemoFS []) = false) ∧
    (mainRun mdDemoFS ["a.md", "b.md"]
        = .success ⟨[("Markdown", ⟨⟨3, 1, 0, 2⟩, 2⟩)],
            [("md", "Markdown")], [("md", Processor.markdown)]⟩ ∧
      exitCode (mainRun mdDemoFS ["a.md", "b.md"]) = 0 ∧
      printsReport (mainRun mdDemoFS ["a.md", "b.md"]) = true ∧
      stderrMessage (mainRun mdDemoFS ["a.md", "b.md"]) = none) :=
  ⟨cli_exit_behavior.1 mdDemoFS,
   cli_exit_behavior.2 mdDemoFS ["a.md", "b.md"] ["a.md", "b.md"]
     ⟨[("Markdown", ⟨⟨3, 1, 0, 2⟩, 2⟩)], [("md", "Markdown")],
       [("md", Processor.markdown)]⟩
     (by decide) (by decide) (by decide)⟩

/-- C9: after construction every processor-registry key (there is exactly
one, "md") is present in the extension map with the consistent language name
"Markdown", and neither map is ever mutated by `process_file` or by the
processing loop. -/
theorem registry_consistency :
    (∀ ext : String,
      (lookupKey ext StatisticsManager.new.processors).isSome →
      ext = "md" ∧
      lookupKey ext StatisticsManager.new.extension_map = some "Markdown") ∧
    (∀ (fs : FS) (m : StatisticsManager) (p : String),
      (m.process_file fs p).1.extension_map = m.extension_map ∧
      (m.process_file fs p).1.processors = m.processors) ∧
    (∀ (fs : FS) (ps : List String) (m : StatisticsManager),
      (processAll fs m ps).1.extension_map = m.extension_map ∧
      (processAll fs m ps).1.processors = m.processors) := by
  refine ⟨?_, fun fs m p => process_file_preserves_maps fs m p,
    fun fs ps m => processAll_preserves_maps fs ps m⟩
  intro ext h
  simp only [StatisticsManager.new, lookupKey] at h
  by_cases hm : "md" = ext
  · subst hm
    exact ⟨rfl, by decide⟩
  · rw [if_neg hm] at h
    simp [lookupKey] at h

/-- Witness for C9: the single registered key. -/
theorem registry_consistency_witness :
    "md" = "md" ∧
    lookupKey "md" StatisticsManager.new.extension_map = some "Markdown" :=
  registry_consistency.1 "md" (by decide)

end Count
